import Mathlib

/-!
Verification development for the TextImage repository (src/App.tsx).

The definitions below are a shallow embedding of the request-construction and
generation-lifecycle logic of `src/App.tsx`: the pure helpers
(`buildPollinationsUrl`, `parseResolution`, `sanitizeFilename`), the seed
derivation of `handleGenerate` (line 127), and the component state touched by
`handleGenerate`.  JavaScript built-ins used by that code
(`String.prototype.trim`, `String.prototype.split`, `parseInt`,
`String.prototype.toLowerCase`, the two regex replaces, `encodeURIComponent`
and `URLSearchParams` serialization) are modelled explicitly on `List Char`.
Fallible operations (`parseInt` returning `NaN`, a missing destructured
element) are modelled with `Option`.
-/

namespace TextImage

/-- ECMAScript whitespace test used by `String.prototype.trim` and `parseInt`
(ASCII portion: tab, LF, VT, FF, CR, space, by code point). -/
def isJsSpace (c : Char) : Bool :=
  c.toNat = 32 || c.toNat = 9 || c.toNat = 10 || c.toNat = 11 || c.toNat = 12 || c.toNat = 13

/-- Models `String.prototype.trim`: strip leading and trailing whitespace. -/
def trimChars (l : List Char) : List Char :=
  ((l.dropWhile isJsSpace).reverse.dropWhile isJsSpace).reverse

/-- Model of `s.trim()` on strings. -/
def jsTrim (s : String) : String :=
  String.mk (trimChars s.data)

/-- Models `String.prototype.split` with a single-character separator. -/
def splitOnChar (sep : Char) : List Char → List (List Char)
  | [] => [[]]
  | c :: cs =>
    match splitOnChar sep cs with
    | [] => [[]]
    | p :: ps => if c = sep then [] :: p :: ps else (c :: p) :: ps

/-- Base-10 value of a digit list, most significant digit first. -/
def decimalVal (l : List Char) : Nat :=
  l.foldl (fun a c => a * 10 + (c.toNat - 48)) 0

/-- The digit scan of `parseInt(·, 10)`: value of the longest leading run of
base-10 digits, `none` (NaN) if there is none. -/
def digitScan (l : List Char) : Option Nat :=
  let ds := l.takeWhile Char.isDigit
  if ds.isEmpty then none else some (decimalVal ds)

/-- Models JS `parseInt(s, 10)`: skip leading whitespace, optional sign, then
the digit scan; `none` models `NaN`. -/
def jsParseInt (l : List Char) : Option Int :=
  match l.dropWhile isJsSpace with
  | [] => none
  | c :: r =>
    if c = '-' then (digitScan r).map (fun n => -(n : Int))
    else if c = '+' then (digitScan r).map (fun n => (n : Int))
    else (digitScan (c :: r)).map (fun n => (n : Int))

/-- Embedding of `parseResolution` from src/App.tsx:
`res.split('x').map((n) => parseInt(n.trim(), 10))`, destructured into the
first two entries.  `none` models `NaN` (or the missing element when the split
has fewer than two parts). -/
def parseResolution (res : String) : Option Int × Option Int :=
  let parts := (splitOnChar 'x' res.data).map (fun n => jsParseInt (trimChars n))
  (parts.getD 0 none, parts.getD 1 none)

/-- The character class `[a-z0-9]` with the `i` flag: ASCII letters (either
case) and digits, by code point. -/
def isAlnumCI (c : Char) : Bool :=
  (97 ≤ c.toNat && c.toNat ≤ 122) || (65 ≤ c.toNat && c.toNat ≤ 90) ||
    (48 ≤ c.toNat && c.toNat ≤ 57)

/-- One pass of `.replace(/[^a-z0-9]+/gi, '-')`: each maximal run of characters
outside the class becomes a single hyphen.  The flag records whether the scan
is currently inside such a run. -/
def collapseAux : Bool → List Char → List Char
  | _, [] => []
  | inRun, c :: cs =>
    if isAlnumCI c then c :: collapseAux false cs
    else if inRun then collapseAux true cs
    else '-' :: collapseAux true cs

def isHyphen (c : Char) : Bool := c.toNat = 45

/-- Model of `.replace(/^-+|-+$/g, '')`: drop the leading and the trailing hyphen run. -/
def stripHyphenEnds (l : List Char) : List Char :=
  ((l.dropWhile isHyphen).reverse.dropWhile isHyphen).reverse

/-- Models `String.prototype.toLowerCase` on the ASCII range (the only
characters that reach it here): code points 65–90 move up by 32. -/
def toLowerCh (c : Char) : Char :=
  if 65 ≤ c.toNat && c.toNat ≤ 90 then Char.ofNat (c.toNat + 32) else c

/-- Embedding of `sanitizeFilename` from src/App.tsx. -/
def sanitizeFilename (s : String) : String :=
  String.mk ((stripHyphenEnds (collapseAux false s.data)).map toLowerCh)

/-- Characters `encodeURIComponent` leaves unescaped (ECMA-262): ASCII
alphanumerics and `- _ . ! ~ *` apostrophe `( )`, by code point. -/
def uriUnescaped (c : Char) : Bool :=
  isAlnumCI c || c.toNat = 45 || c.toNat = 95 || c.toNat = 46 || c.toNat = 33 ||
    c.toNat = 126 || c.toNat = 42 || c.toNat = 39 || c.toNat = 40 || c.toNat = 41

/-- Uppercase hexadecimal digit character for a value below 16. -/
def hexDigitCh (n : Nat) : Char :=
  if n < 10 then Char.ofNat (48 + n) else Char.ofNat (55 + n)

/-- UTF-8 bytes of a character, as naturals. -/
def utf8Bytes (c : Char) : List Nat :=
  let n := c.toNat
  if n < 128 then [n]
  else if n < 2048 then [192 + n / 64, 128 + n % 64]
  else if n < 65536 then [224 + n / 4096, 128 + n / 64 % 64, 128 + n % 64]
  else [240 + n / 262144, 128 + n / 4096 % 64, 128 + n / 64 % 64, 128 + n % 64]

/-- The `%XY` escape of one byte. -/
def pctByte (b : Nat) : List Char :=
  ['%', hexDigitCh (b / 16), hexDigitCh (b % 16)]

/-- Models JS `encodeURIComponent`. -/
def encodeURIComponent (s : String) : String :=
  String.mk (s.data.flatMap fun c =>
    if uriUnescaped c then [c] else (utf8Bytes c).flatMap pctByte)

/-- Characters `URLSearchParams` serialization leaves unescaped
(application/x-www-form-urlencoded: ASCII alphanumerics and `* - . _`;
space becomes `+`). -/
def formUnescaped (c : Char) : Bool :=
  isAlnumCI c || c.toNat = 42 || c.toNat = 45 || c.toNat = 46 || c.toNat = 95

/-- Form-urlencoding of one key or value in `URLSearchParams.toString()`. -/
def formEncode (s : String) : String :=
  String.mk (s.data.flatMap fun c =>
    if formUnescaped c then [c]
    else if c.toNat = 32 then ['+']
    else (utf8Bytes c).flatMap pctByte)

/-- The `model` entry of the query: `if (model) qs.set('model', model)` — the
JS truthiness test skips both an absent and an empty model. -/
def modelParam (model : Option String) : List (String × String) :=
  match model with
  | some m => if m = "" then [] else [("model", m)]
  | none => []

/-- The `URLSearchParams` contents built by `buildPollinationsUrl`: width,
height, seed and nologo always; then model (when truthy) and enhance (when
true), appended by `qs.set` in that order. -/
def pollinationsQuery (width height : Int) (seed : Nat) (model : Option String)
    (enhance : Bool) : List (String × String) :=
  [("width", Int.repr width), ("height", Int.repr height),
   ("seed", Nat.repr seed), ("nologo", "true")]
    ++ modelParam model
    ++ (if enhance then [("enhance", "true")] else [])

/-- Model of `URLSearchParams.toString()`. -/
def serializeQuery (q : List (String × String)) : String :=
  String.intercalate "&" (q.map fun kv => formEncode kv.1 ++ "=" ++ formEncode kv.2)

/-- Embedding of `buildPollinationsUrl` from src/App.tsx. -/
def buildPollinationsUrl (prompt : String) (width height : Int) (seed : Nat)
    (model : Option String) (enhance : Bool) : String :=
  "https://image.pollinations.ai/prompt/" ++ encodeURIComponent prompt ++ "?" ++
    serializeQuery (pollinationsQuery width height seed model enhance)

/-- The seed sequence of one batch (src/App.tsx line 127): the i-th entry adds
`i` to the value the random source yields on the i-th evaluation — a fresh
`crypto.getRandomValues` 32-bit word per iteration when crypto is available,
or `Date.now()` at that moment as the fallback.  `draw i` is the value the
source yields on iteration `i`. -/
def batchSeeds (draw : Nat → Nat) (count : Nat) : List Nat :=
  (List.range count).map fun i => draw i + i

inductive StyleOption where
  | realistic | artistic | cartoon | abstract | cyberpunk | vintage
  deriving DecidableEq

inductive Resolution where
  | r512x512 | r768x768 | r1024x1024 | r1536x1024
  deriving DecidableEq

/-- The literal token of each member of the closed `Resolution` union type. -/
def Resolution.token : Resolution → String
  | .r512x512 => "512x512"
  | .r768x768 => "768x768"
  | .r1024x1024 => "1024x1024"
  | .r1536x1024 => "1536x1024"

inductive Quality where
  | standard | high | ultra
  deriving DecidableEq

/-- Embedding of `STYLE_PRESETS` from src/App.tsx. -/
def STYLE_PRESETS : StyleOption → String
  | .realistic => "photorealistic, natural lighting, DSLR depth of field, highly detailed"
  | .artistic => "digital painting, painterly brushstrokes, dramatic lighting"
  | .cartoon => "cartoon, cel-shaded, bold outlines, flat colors"
  | .abstract => "abstract, geometric shapes, minimalism"
  | .cyberpunk => "cyberpunk, neon lights, rain-soaked streets, holograms, high contrast"
  | .vintage => "vintage, film grain, faded colors, 35mm photo, 1970s aesthetic"

/-- Embedding of `MODEL_BY_STYLE` from src/App.tsx: `flux` for every style. -/
def MODEL_BY_STYLE : StyleOption → String := fun _ => "flux"

/-- The quality tweak phrase computed inline in `handleGenerate`. -/
def qualityTweak : Quality → String
  | .ultra => "ultra-detailed, crisp focus, 8k"
  | .high => "high detail, sharp focus"
  | .standard => ""

/-- The enhanced prompt template of `handleGenerate`:
stylePreset, trimmed prompt, then the quality tweak when it is truthy. -/
def enhancedPromptOf (style : StyleOption) (q : Quality) (trimmed : String) : String :=
  STYLE_PRESETS style ++ ", " ++ trimmed ++
    (if qualityTweak q = "" then "" else ", " ++ qualityTweak q)

/-- Embedding of `const enhance = quality !== 'standard'`. -/
def enhanceFlag (q : Quality) : Bool := q != Quality.standard

/-- Embedding of `const { width, height } = parseResolution(resolution)`.  On the four
closed tokens both sides parse, so the `getD 0` default standing in for the
impossible NaN case is never taken (`resolutionDims_eq` below). -/
def resolutionDims (r : Resolution) : Int × Int :=
  ((parseResolution r.token).1.getD 0, (parseResolution r.token).2.getD 0)

structure GeneratedImage where
  url : String
  prompt : String
  style : StyleOption
  resolution : Resolution
  quality : Quality
  seed : Nat
  width : Int
  height : Int
  deriving DecidableEq

inductive StatusType where
  | success | error | info
  deriving DecidableEq

structure Status where
  type : StatusType
  message : String
  deriving DecidableEq

/-- The component state touched by `handleGenerate` and the modal handlers. -/
structure AppState where
  prompt : String
  style : StyleOption
  resolution : Resolution
  quality : Quality
  count : Nat
  isGenerating : Bool
  status : Option Status
  images : List GeneratedImage
  modalUrl : Option String
  modalPrompt : String
  deriving DecidableEq

def emptyPromptMessage : String := "Please enter a description for your image."

def successMessage (n : Nat) : String :=
  "Successfully generated " ++ Nat.repr n ++ " image" ++ (if 1 < n then "s" else "") ++ "!"

/-- The batch built inside `handleGenerate` (lines 126–130). -/
def batchImages (draw : Nat → Nat) (trimmed : String) (style : StyleOption)
    (res : Resolution) (q : Quality) (count : Nat) : List GeneratedImage :=
  (List.range count).map fun i =>
    let seed := draw i + i
    { url := buildPollinationsUrl (enhancedPromptOf style q trimmed)
        (resolutionDims res).1 (resolutionDims res).2 seed
        (some (MODEL_BY_STYLE style)) (enhanceFlag q)
      prompt := trimmed
      style := style
      resolution := res
      quality := q
      seed := seed
      width := (resolutionDims res).1
      height := (resolutionDims res).2 }

/-- The mid-flight state right after the synchronous prefix of a validated
`handleGenerate` call: the flag set, previous results cleared, info status. -/
def generatingState (s : AppState) : AppState :=
  { s with isGenerating := true, images := [],
           status := some ⟨.info, "Generating your images..."⟩ }

/-- Embedding of `handleGenerate` from src/App.tsx, run to completion.  The awaited pacing
delay only suspends; no other mutation interleaves in the runs the claims
concern, so the final state applies the post-delay updates to the mid-flight
state.  `draw i` is the value the seed source yields on iteration `i`. -/
def handleGenerate (draw : Nat → Nat) (s : AppState) : AppState :=
  if jsTrim s.prompt = "" then { s with status := some ⟨.error, emptyPromptMessage⟩ }
  else if s.isGenerating then s
  else
    let next := batchImages draw (jsTrim s.prompt) s.style s.resolution s.quality s.count
    { generatingState s with images := next, isGenerating := false,
                             status := some ⟨.success, successMessage next.length⟩ }

/-- The URL delimiter characters `? & = # /`, by code point. -/
def isUrlDelim (c : Char) : Bool :=
  c.toNat = 63 || c.toNat = 38 || c.toNat = 61 || c.toNat = 35 || c.toNat = 47

/-- A character that can occur in a collapsed filename fragment: in the class
`[a-z0-9]` (either case) or a hyphen. -/
def GoodChar (c : Char) : Prop :=
  isAlnumCI c = true ∨ isHyphen c = true

/-- Adjacency invariant of a collapsed fragment: of any two neighbours at
least one is alphanumeric (no two adjacent hyphens). -/
def AdjOk (a b : Char) : Prop :=
  isAlnumCI a = true ∨ isAlnumCI b = true

/-! ### Character-level facts used throughout -/

theorem char_eq_of_toNat {a b : Char} (h : a.toNat = b.toNat) : a = b :=
  Char.eq_of_val_eq (UInt32.ext h)

theorem toNat_ofNat_small (n : Nat) (h : n < 55296) : (Char.ofNat n).toNat = n := by
  unfold Char.ofNat
  rw [dif_pos (Or.inl h)]
  rfl

theorem char_toNat_lt (c : Char) : c.toNat < 1114112 := by
  have hv : c.toNat = c.val.toNat := rfl
  rcases c.valid with h | h
  · omega
  · omega

/-! ### Seed generation: claims C1 and C2 -/

/-- C1: the claim says the batch's seeds are pairwise distinct because seed `i`
is derived from a single random draw offset by `i`.  The code instead draws a
fresh 32-bit word on every iteration of the map and offsets that draw by `i`
(line 127), so two valid crypto draws can collide: draws 1 (at i = 0) and 0
(at i = 1) — both below 2^32 — yield the seed list [1, 1], which is not
pairwise distinct. -/
theorem batchSeeds_collision :
    (1 - 0 < 2 ^ 32 ∧ 1 - 1 < 2 ^ 32) ∧
    batchSeeds (fun i => 1 - i) 2 = [1, 1] ∧
    ¬ (batchSeeds (fun i => 1 - i) 2).Pairwise (· ≠ ·) := by decide

/-- C2 counterexample: with the maximal valid crypto word 2^32 - 1 drawn on an
iteration with offset 1, the resulting seed is 2^32, which is not representable
in 32 bits. -/
theorem batchSeeds_exceeds_32_bits :
    2 ^ 32 ∈ batchSeeds (fun _ => 2 ^ 32 - 1) 2 ∧
    2 ^ 32 - 1 < 2 ^ 32 ∧
    ¬ 2 ^ 32 ≤ 2 ^ 32 - 1 := by decide

/-- C2 (amended): every seed is a non-negative integer, and under the
cryptographic source (every draw below 2^32) each seed of the batch is below
2^32 + count; the 32-bit bound 2^32 - 1 itself can be exceeded by up to
count - 1, and the time-based fallback is not bounded by it at all. -/
theorem batchSeeds_bounded (draw : Nat → Nat) (count : Nat)
    (hc : ∀ i, draw i < 2 ^ 32) :
    ∀ x ∈ batchSeeds draw count, x < 2 ^ 32 + count := by
  intro x hx
  simp only [batchSeeds, List.mem_map, List.mem_range] at hx
  obtain ⟨i, hi, rfl⟩ := hx
  have := hc i
  omega

theorem batchSeeds_bounded_witness : 0 < 2 ^ 32 + 1 :=
  batchSeeds_bounded (fun _ => 0) 1 (fun _ => by show (0 : Nat) < 2 ^ 32; decide) 0 (by decide)

/-! ### Generation session state machine: claims C3, C4, C9, C10 -/

/-- C3: starting with a prompt that is empty after trimming only overwrites the
status with the user-facing validation error: no images are produced, and the
session never advances to Generating (the flag is untouched, so a non-running
session stays non-running). -/
theorem handleGenerate_emptyPrompt (draw : Nat → Nat) (s : AppState)
    (h : jsTrim s.prompt = "") :
    handleGenerate draw s = { s with status := some ⟨.error, emptyPromptMessage⟩ } ∧
    (handleGenerate draw s).images = s.images ∧
    (handleGenerate draw s).isGenerating = s.isGenerating ∧
    (s.isGenerating = false → (handleGenerate draw s).isGenerating = false) := by
  refine ⟨?_, ?_, ?_, ?_⟩ <;> simp [handleGenerate, h]

theorem handleGenerate_emptyPrompt_witness :
    (handleGenerate (fun _ => 0)
      { prompt := "   ", style := .realistic, resolution := .r512x512,
        quality := .standard, count := 1, isGenerating := false, status := none,
        images := [], modalUrl := none, modalPrompt := "" }).status
      = some ⟨.error, emptyPromptMessage⟩ ∧
    (handleGenerate (fun _ => 0)
      { prompt := "   ", style := .realistic, resolution := .r512x512,
        quality := .standard, count := 1, isGenerating := false, status := none,
        images := [], modalUrl := none, modalPrompt := "" }).images = [] := by
  have h := handleGenerate_emptyPrompt (fun _ => 0)
      { prompt := "   ", style := .realistic, resolution := .r512x512,
        quality := .standard, count := 1, isGenerating := false, status := none,
        images := [], modalUrl := none, modalPrompt := "" } (by decide)
  exact ⟨by rw [h.1], h.2.1⟩

/-- C4 (amended): a start call made while the session is Generating whose
trimmed prompt is non-empty is a no-op — the state, and with it the batch list
and the notification, is unchanged.  (With an empty trimmed prompt the
validation branch runs first and overwrites the status; see the
counterexample.) -/
theorem handleGenerate_busy (draw : Nat → Nat) (s : AppState)
    (hg : s.isGenerating = true) (hp : jsTrim s.prompt ≠ "") :
    handleGenerate draw s = s := by
  simp [handleGenerate, hp, hg]

theorem handleGenerate_busy_witness :
    handleGenerate (fun _ => 0)
      { prompt := "cat", style := .realistic, resolution := .r512x512,
        quality := .standard, count := 1, isGenerating := true, status := none,
        images := [], modalUrl := none, modalPrompt := "" }
      = { prompt := "cat", style := .realistic, resolution := .r512x512,
          quality := .standard, count := 1, isGenerating := true, status := none,
          images := [], modalUrl := none, modalPrompt := "" } :=
  handleGenerate_busy (fun _ => 0) _ rfl (by decide)

/-- C4 counterexample: the validation check runs before the re-entrancy guard,
so a start call made while Generating with an empty prompt is not a no-op — it
overwrites the status with the validation error notification. -/
theorem handleGenerate_busy_not_noop :
    handleGenerate (fun _ => 0)
      { prompt := "", style := .realistic, resolution := .r512x512,
        quality := .standard, count := 1, isGenerating := true, status := none,
        images := [], modalUrl := none, modalPrompt := "" } ≠
    { prompt := "", style := .realistic, resolution := .r512x512,
      quality := .standard, count := 1, isGenerating := true, status := none,
      images := [], modalUrl := none, modalPrompt := "" } := by decide

/-- The enhanced prompt always differs from the trimmed prompt it embeds: the
template inserts the style phrase and a `", "` separator in front. -/
theorem enhancedPromptOf_ne (st : StyleOption) (q : Quality) (t : String) :
    enhancedPromptOf st q t ≠ t := by
  intro heq
  have hlen := congrArg String.length heq
  simp only [enhancedPromptOf] at hlen
  have h1 : (", " : String).length = 2 := rfl
  by_cases hq : qualityTweak q = ""
  · rw [if_pos hq] at hlen
    simp only [String.length_append] at hlen
    omega
  · rw [if_neg hq] at hlen
    simp only [String.length_append] at hlen
    omega

/-- C9: a start from a non-Generating state with a prompt that is non-empty
after trimming and count N yields the success state with exactly N generated
images, each carrying the batch's style, resolution token and quality, and
each storing the trimmed user-entered prompt — not the enhanced prompt sent in
the address. -/
theorem handleGenerate_success (draw : Nat → Nat) (s : AppState)
    (hp : jsTrim s.prompt ≠ "") (hg : s.isGenerating = false) :
    (handleGenerate draw s).images.length = s.count ∧
    (∀ img ∈ (handleGenerate draw s).images,
      img.prompt = jsTrim s.prompt ∧
      img.style = s.style ∧
      img.resolution = s.resolution ∧
      img.quality = s.quality ∧
      img.prompt ≠ enhancedPromptOf s.style s.quality (jsTrim s.prompt)) ∧
    (handleGenerate draw s).isGenerating = false ∧
    (handleGenerate draw s).status = some ⟨.success, successMessage s.count⟩ := by
  refine ⟨?_, ?_, ?_, ?_⟩
  · simp [handleGenerate, hp, hg, batchImages]
  · intro img him
    simp only [handleGenerate, hp, hg] at him
    simp [batchImages] at him
    obtain ⟨i, hi, rfl⟩ := him
    exact ⟨rfl, rfl, rfl, rfl, Ne.symm (enhancedPromptOf_ne _ _ _)⟩
  · simp [handleGenerate, hp, hg]
  · simp [handleGenerate, hp, hg, batchImages]

theorem handleGenerate_success_witness :
    (handleGenerate (fun i => 10 * i)
      { prompt := " cat ", style := .artistic, resolution := .r768x768,
        quality := .high, count := 2, isGenerating := false, status := none,
        images := [], modalUrl := none, modalPrompt := "" }).images.length = 2 ∧
    (handleGenerate (fun i => 10 * i)
      { prompt := " cat ", style := .artistic, resolution := .r768x768,
        quality := .high, count := 2, isGenerating := false, status := none,
        images := [], modalUrl := none, modalPrompt := "" }).isGenerating = false ∧
    (handleGenerate (fun i => 10 * i)
      { prompt := " cat ", style := .artistic, resolution := .r768x768,
        quality := .high, count := 2, isGenerating := false, status := none,
        images := [], modalUrl := none, modalPrompt := "" }).status
      = some ⟨.success, successMessage 2⟩ := by
  have h := handleGenerate_success (fun i => 10 * i)
      { prompt := " cat ", style := .artistic, resolution := .r768x768,
        quality := .high, count := 2, isGenerating := false, status := none,
        images := [], modalUrl := none, modalPrompt := "" } (by decide) rfl
  exact ⟨h.1, h.2.2.1, h.2.2.2⟩

/-- C10: a start call that fails validation (empty trimmed prompt) leaves the
previously generated images, the Generating flag and both viewer fields
untouched; results are cleared only by the state that begins a new Generating
cycle (whose image list is empty). -/
theorem handleGenerate_emptyPrompt_frame (draw : Nat → Nat) (s : AppState)
    (h : jsTrim s.prompt = "") :
    (handleGenerate draw s).images = s.images ∧
    (handleGenerate draw s).isGenerating = s.isGenerating ∧
    (handleGenerate draw s).modalUrl = s.modalUrl ∧
    (handleGenerate draw s).modalPrompt = s.modalPrompt ∧
    (generatingState s).images = [] := by
  refine ⟨?_, ?_, ?_, ?_, rfl⟩ <;> simp [handleGenerate, h]

theorem handleGenerate_emptyPrompt_frame_witness :
    (handleGenerate (fun _ => 0)
      { prompt := "\t ", style := .cartoon, resolution := .r1024x1024,
        quality := .ultra, count := 4, isGenerating := false, status := none,
        images := [], modalUrl := some "https://example/img", modalPrompt := "old" }).modalUrl
      = some "https://example/img" ∧
    (handleGenerate (fun _ => 0)
      { prompt := "\t ", style := .cartoon, resolution := .r1024x1024,
        quality := .ultra, count := 4, isGenerating := false, status := none,
        images := [], modalUrl := some "https://example/img", modalPrompt := "old" }).modalPrompt
      = "old" := by
  have h := handleGenerate_emptyPrompt_frame (fun _ => 0)
      { prompt := "\t ", style := .cartoon, resolution := .r1024x1024,
        quality := .ultra, count := 4, isGenerating := false, status := none,
        images := [], modalUrl := some "https://example/img", modalPrompt := "old" } (by decide)
  exact ⟨h.2.2.1, h.2.2.2.1⟩

/-! ### Resolution codec: claim C5 -/

theorem splitOnChar_no_sep (sep : Char) (l : List Char) (h : sep ∉ l) :
    splitOnChar sep l = [l] := by
  induction l with
  | nil => rfl
  | cons c cs ih =>
    have hc : c ≠ sep := by rintro rfl; exact h (List.mem_cons_self _ _)
    have hcs : sep ∉ cs := fun hm => h (List.mem_cons_of_mem _ hm)
    simp [splitOnChar, ih hcs, hc]

theorem splitOnChar_append (sep : Char) (a b : List Char)
    (ha : sep ∉ a) (hb : sep ∉ b) :
    splitOnChar sep (a ++ sep :: b) = [a, b] := by
  induction a with
  | nil => simp [splitOnChar, splitOnChar_no_sep sep b hb]
  | cons c cs ih =>
    have hc : c ≠ sep := by rintro rfl; exact ha (List.mem_cons_self _ _)
    have hcs : sep ∉ cs := fun hm => ha (List.mem_cons_of_mem _ hm)
    simp [splitOnChar, ih hcs, hc]

theorem isDigit_toNat {c : Char} (h : c.isDigit = true) :
    48 ≤ c.toNat ∧ c.toNat ≤ 57 := by
  simp [Char.isDigit] at h
  exact h

theorem digit_not_space {c : Char} (h : c.isDigit = true) : isJsSpace c = false := by
  have hn := isDigit_toNat h
  simp [isJsSpace]
  omega

theorem dropWhile_of_head_false (p : Char → Bool) (l : List Char)
    (h : ∀ c ∈ l.head?, p c = false) : l.dropWhile p = l := by
  cases l with
  | nil => rfl
  | cons a t =>
    rw [List.dropWhile_cons, if_neg]
    simp at h
    simp [h]

theorem trimChars_digits (l : List Char) (hd : ∀ c ∈ l, c.isDigit = true) :
    trimChars l = l := by
  have hmem : ∀ c ∈ l, isJsSpace c = false := fun c hc => digit_not_space (hd c hc)
  have h1 : l.dropWhile isJsSpace = l :=
    dropWhile_of_head_false _ _ (fun c hc => hmem c (List.mem_of_mem_head? hc))
  have h2 : l.reverse.dropWhile isJsSpace = l.reverse :=
    dropWhile_of_head_false _ _ (fun c hc => hmem c (by
      have := List.mem_of_mem_head? hc
      simpa [List.mem_reverse] using this))
  simp [trimChars, h1, h2]

theorem jsParseInt_digits (l : List Char) (hne : l ≠ [])
    (hd : ∀ c ∈ l, c.isDigit = true) :
    jsParseInt l = some (decimalVal l : Int) := by
  have h1 : l.dropWhile isJsSpace = l :=
    dropWhile_of_head_false _ _
      (fun c hc => digit_not_space (hd c (List.mem_of_mem_head? hc)))
  obtain ⟨c, r, rfl⟩ : ∃ c r, l = c :: r := by
    cases l with
    | nil => exact absurd rfl hne
    | cons c r => exact ⟨c, r, rfl⟩
  have hcn := isDigit_toNat (hd c (List.mem_cons_self _ _))
  have hcm : c ≠ '-' := by
    intro he
    rw [he] at hcn
    revert hcn
    decide
  have hcp : c ≠ '+' := by
    intro he
    rw [he] at hcn
    revert hcn
    decide
  have htake : (c :: r).takeWhile Char.isDigit = c :: r :=
    List.takeWhile_eq_self_iff.mpr hd
  simp only [jsParseInt, h1]
  rw [if_neg hcm, if_neg hcp]
  simp [digitScan, htake]

/-- The four closed resolution tokens all parse, so the NaN default in
`resolutionDims` is never taken. -/
theorem resolutionDims_eq :
    resolutionDims .r512x512 = (512, 512) ∧ resolutionDims .r768x768 = (768, 768) ∧
    resolutionDims .r1024x1024 = (1024, 1024) ∧ resolutionDims .r1536x1024 = (1536, 1024) := by
  refine ⟨?_, ?_, ?_, ?_⟩ <;> decide

/-- C5: for every well-formed token `"WxH"` — base-10 digit strings on either
side of the literal `x` — `parseResolution` returns exactly the pair of their
base-10 values. -/
theorem parseResolution_wellFormed (w h : String)
    (hw : w.data ≠ []) (hh : h.data ≠ [])
    (hwd : ∀ c ∈ w.data, c.isDigit = true) (hhd : ∀ c ∈ h.data, c.isDigit = true) :
    parseResolution (w ++ "x" ++ h)
      = (some (decimalVal w.data : Int), some (decimalVal h.data : Int)) := by
  have hxw : 'x' ∉ w.data := by
    intro hm
    have := isDigit_toNat (hwd _ hm)
    revert this
    decide
  have hxh : 'x' ∉ h.data := by
    intro hm
    have := isDigit_toNat (hhd _ hm)
    revert this
    decide
  have hdata : (w ++ "x" ++ h).data = w.data ++ 'x' :: h.data := by
    rw [String.data_append, String.data_append]
    simp
  simp only [parseResolution, hdata, splitOnChar_append 'x' _ _ hxw hxh,
    List.map_cons, List.map_nil, trimChars_digits _ hwd, trimChars_digits _ hhd,
    jsParseInt_digits _ hw hwd, jsParseInt_digits _ hh hhd]
  rfl

theorem parseResolution_wellFormed_witness :
    parseResolution "1024x768" = (some 1024, some 768) := by
  have h := parseResolution_wellFormed "1024" "768" (by decide) (by decide)
      (by decide) (by decide)
  rw [(by decide : ("1024" : String) ++ "x" ++ "768" = "1024x768")] at h
  rw [(by decide : (decimalVal ("1024" : String).data : Int) = 1024)] at h
  rw [(by decide : (decimalVal ("768" : String).data : Int) = 768)] at h
  exact h

/-! ### Request builder query: claim C7 -/

/-- C7: the address has the form
`https://image.pollinations.ai/prompt/<encoded prompt>?<query>`; the query
pairs always contain width, height, seed and `nologo=true`; a `model` pair is
present exactly when a non-empty model is provided, an `enhance` pair exactly
when the enhance flag is true, and neither is ever sent with a false or empty
value. -/
theorem pollinationsQuery_params (p : String) (w h : Int) (s : Nat)
    (m : Option String) (e : Bool) :
    (("width", Int.repr w) ∈ pollinationsQuery w h s m e ∧
     ("height", Int.repr h) ∈ pollinationsQuery w h s m e ∧
     ("seed", Nat.repr s) ∈ pollinationsQuery w h s m e ∧
     ("nologo", "true") ∈ pollinationsQuery w h s m e) ∧
    ((∃ v, ("model", v) ∈ pollinationsQuery w h s m e) ↔ ∃ ms, m = some ms ∧ ms ≠ "") ∧
    ((∃ v, ("enhance", v) ∈ pollinationsQuery w h s m e) ↔ e = true) ∧
    (∀ v, ("model", v) ∈ pollinationsQuery w h s m e → v ≠ "") ∧
    (∀ v, ("enhance", v) ∈ pollinationsQuery w h s m e → v = "true") ∧
    buildPollinationsUrl p w h s m e
      = "https://image.pollinations.ai/prompt/" ++ encodeURIComponent p ++ "?" ++
        serializeQuery (pollinationsQuery w h s m e) := by
  refine ⟨⟨?_, ?_, ?_, ?_⟩, ?_, ?_, ?_, ?_, rfl⟩
  · simp [pollinationsQuery]
  · simp [pollinationsQuery]
  · simp [pollinationsQuery]
  · simp [pollinationsQuery]
  · rcases m with _ | ms
    · cases e <;> simp [pollinationsQuery, modelParam]
    · by_cases hms : ms = "" <;> cases e <;>
        simp [pollinationsQuery, modelParam, hms]
  · rcases m with _ | ms
    · cases e <;> simp [pollinationsQuery, modelParam]
    · by_cases hms : ms = "" <;> cases e <;>
        simp [pollinationsQuery, modelParam, hms]
  · intro v
    rcases m with _ | ms
    · cases e <;> simp [pollinationsQuery, modelParam]
    · by_cases hms : ms = "" <;> cases e <;>
        simp [pollinationsQuery, modelParam, hms] <;> rintro rfl <;> exact hms
  · intro v
    rcases m with _ | ms
    · cases e <;> simp [pollinationsQuery, modelParam]
    · by_cases hms : ms = "" <;> cases e <;>
        simp [pollinationsQuery, modelParam, hms]

/-! ### Prompt encoding: claim C8 -/

theorem utf8Bytes_lt (c : Char) : ∀ b ∈ utf8Bytes c, b < 256 := by
  intro b hb
  have hc := char_toNat_lt c
  simp only [utf8Bytes] at hb
  split_ifs at hb with h1 h2 h3
  · simp at hb; omega
  · simp at hb; rcases hb with rfl | rfl <;> omega
  · simp at hb; rcases hb with rfl | rfl | rfl <;> omega
  · simp at hb; rcases hb with rfl | rfl | rfl | rfl <;> omega

theorem hexDigitCh_toNat (n : Nat) (h : n < 16) :
    (48 ≤ (hexDigitCh n).toNat ∧ (hexDigitCh n).toNat ≤ 57) ∨
    (65 ≤ (hexDigitCh n).toNat ∧ (hexDigitCh n).toNat ≤ 70) := by
  unfold hexDigitCh
  split_ifs with h10
  · left
    rw [toNat_ofNat_small _ (by omega)]
    omega
  · right
    rw [toNat_ofNat_small _ (by omega)]
    omega

theorem pctByte_no_delim (b : Nat) (hb : b < 256) :
    ∀ c ∈ pctByte b, isUrlDelim c = false := by
  intro c hc
  simp [pctByte] at hc
  rcases hc with rfl | rfl | rfl
  · decide
  · have := hexDigitCh_toNat (b / 16) (by omega)
    simp [isUrlDelim]
    omega
  · have := hexDigitCh_toNat (b % 16) (by omega)
    simp [isUrlDelim]
    omega

theorem uriUnescaped_no_delim {c : Char} (h : uriUnescaped c = true) :
    isUrlDelim c = false := by
  simp [uriUnescaped, isAlnumCI] at h
  simp [isUrlDelim]
  omega

theorem encodeURIComponent_no_delim (p : String) :
    ∀ c ∈ (encodeURIComponent p).data, isUrlDelim c = false := by
  intro c hc
  simp only [encodeURIComponent] at hc
  rw [List.mem_flatMap] at hc
  obtain ⟨a, ha, hca⟩ := hc
  by_cases hu : uriUnescaped a
  · rw [if_pos hu] at hca
    simp at hca
    subst hca
    exact uriUnescaped_no_delim hu
  · rw [if_neg hu] at hca
    rw [List.mem_flatMap] at hca
    obtain ⟨b, hb, hcb⟩ := hca
    exact pctByte_no_delim b (utf8Bytes_lt a b hb) c hcb

/-- C8: the prompt path segment of the built address is the raw prompt passed
through `encodeURIComponent` exactly once, and for every prompt the encoded
segment contains none of the URL delimiter characters `? & = # /`, so a
free-form prompt can neither corrupt the address nor inject extra query
parameters. -/
theorem buildUrl_prompt_segment_safe :
    (isUrlDelim '?' = true ∧ isUrlDelim '&' = true ∧ isUrlDelim '=' = true ∧
     isUrlDelim '#' = true ∧ isUrlDelim '/' = true) ∧
    (∀ p : String, ∀ c ∈ (encodeURIComponent p).data, isUrlDelim c = false) ∧
    (∀ (p : String) (w h : Int) (s : Nat) (m : Option String) (e : Bool),
      buildPollinationsUrl p w h s m e
        = "https://image.pollinations.ai/prompt/" ++ encodeURIComponent p ++ "?" ++
          serializeQuery (pollinationsQuery w h s m e)) :=
  ⟨by decide, encodeURIComponent_no_delim, fun _ _ _ _ _ _ => rfl⟩

/-! ### Filename sanitizer: claim C6 -/

theorem toNat_toLowerCh_upper {c : Char} (h : 65 ≤ c.toNat ∧ c.toNat ≤ 90) :
    (toLowerCh c).toNat = c.toNat + 32 := by
  have hb : (65 ≤ c.toNat && c.toNat ≤ 90) = true := by
    simp
    omega
  unfold toLowerCh
  rw [if_pos hb]
  exact toNat_ofNat_small _ (by omega)

theorem toLowerCh_not_upper {c : Char} (h : ¬(65 ≤ c.toNat ∧ c.toNat ≤ 90)) :
    toLowerCh c = c := by
  have hb : (65 ≤ c.toNat && c.toNat ≤ 90) = false := by
    simp
    omega
  unfold toLowerCh
  rw [hb]
  simp

theorem isAlnumCI_toLowerCh (c : Char) : isAlnumCI (toLowerCh c) = isAlnumCI c := by
  by_cases h : 65 ≤ c.toNat ∧ c.toNat ≤ 90
  · have ht := toNat_toLowerCh_upper h
    refine Bool.coe_iff_coe.mp ?_
    simp [isAlnumCI, ht]
    omega
  · rw [toLowerCh_not_upper h]

theorem isHyphen_toLowerCh (c : Char) : isHyphen (toLowerCh c) = isHyphen c := by
  by_cases h : 65 ≤ c.toNat ∧ c.toNat ≤ 90
  · have ht := toNat_toLowerCh_upper h
    refine Bool.coe_iff_coe.mp ?_
    simp [isHyphen, ht]
    omega
  · rw [toLowerCh_not_upper h]

theorem toLowerCh_idem (c : Char) : toLowerCh (toLowerCh c) = toLowerCh c := by
  by_cases h : 65 ≤ c.toNat ∧ c.toNat ≤ 90
  · have ht := toNat_toLowerCh_upper h
    apply toLowerCh_not_upper
    omega
  · rw [toLowerCh_not_upper h, toLowerCh_not_upper h]

theorem collapseAux_good (b : Bool) (l : List Char) :
    ∀ c ∈ collapseAux b l, GoodChar c := by
  induction l generalizing b with
  | nil => simp [collapseAux]
  | cons a t ih =>
    intro c hc
    simp only [collapseAux] at hc
    split_ifs at hc with h1 h2
    · rcases List.mem_cons.mp hc with rfl | hm
      · exact Or.inl h1
      · exact ih false c hm
    · exact ih true c hc
    · rcases List.mem_cons.mp hc with rfl | hm
      · exact Or.inr (by decide)
      · exact ih true c hm

theorem collapseAux_chain (l : List Char) :
    (List.Chain' AdjOk (collapseAux true l) ∧
      (∀ c ∈ (collapseAux true l).head?, isAlnumCI c = true)) ∧
    List.Chain' AdjOk (collapseAux false l) := by
  induction l with
  | nil => exact ⟨⟨List.chain'_nil, by simp [collapseAux]⟩, List.chain'_nil⟩
  | cons a t ih =>
    obtain ⟨⟨ihT, ihH⟩, ihF⟩ := ih
    by_cases h1 : isAlnumCI a = true
    · have hunf : ∀ b : Bool, collapseAux b (a :: t) = a :: collapseAux false t := by
        intro b
        simp [collapseAux, h1]
      refine ⟨⟨?_, ?_⟩, ?_⟩
      · rw [hunf]
        exact List.chain'_cons'.mpr ⟨fun y hy => Or.inl h1, ihF⟩
      · rw [hunf]
        intro c hc
        simp at hc
        rwa [← hc]
      · rw [hunf]
        exact List.chain'_cons'.mpr ⟨fun y hy => Or.inl h1, ihF⟩
    · have hT : collapseAux true (a :: t) = collapseAux true t := by
        simp [collapseAux, h1]
      have hF : collapseAux false (a :: t) = '-' :: collapseAux true t := by
        simp [collapseAux, h1]
      refine ⟨⟨by rw [hT]; exact ihT, by rw [hT]; exact ihH⟩, ?_⟩
      rw [hF]
      exact List.chain'_cons'.mpr ⟨fun y hy => Or.inr (ihH y hy), ihT⟩

theorem collapseAux_fix (l : List Char) (hg : ∀ c ∈ l, GoodChar c)
    (hc : List.Chain' AdjOk l) : collapseAux false l = l := by
  induction l with
  | nil => rfl
  | cons a t ih =>
    have hgt : ∀ c ∈ t, GoodChar c := fun c hm => hg c (List.mem_cons_of_mem _ hm)
    have hct : List.Chain' AdjOk t := hc.tail
    rcases hg a (List.mem_cons_self _ _) with ha | ha
    · simp [collapseAux, ha, ih hgt hct]
    · have ha45 : a.toNat = 45 := by simpa [isHyphen] using ha
      have ha' : a = '-' := char_eq_of_toNat (by rw [ha45]; rfl)
      have hna : isAlnumCI a = false := by
        simp [isAlnumCI]
        omega
      cases t with
      | nil => simp [collapseAux, hna, ha']
      | cons d ds =>
        have hd : isAlnumCI d = true := by
          have had := (List.chain'_cons'.mp hc).1 d (by simp)
          rcases had with h | h
          · rw [hna] at h
            exact absurd h (by simp)
          · exact h
        have ihds := ih hgt hct
        have hun : collapseAux false (d :: ds) = d :: collapseAux false ds := by
          simp [collapseAux, hd]
        rw [hun] at ihds
        have hds : collapseAux false ds = ds := by simpa using ihds
        simp [collapseAux, hna, hd, hds, ha']

theorem dropWhile_head_not (p : Char → Bool) (l : List Char) (c : Char)
    (h : c ∈ (l.dropWhile p).head?) : p c = false := by
  rw [Option.mem_def] at h
  induction l with
  | nil => simp at h
  | cons a t ih =>
    rw [List.dropWhile_cons] at h
    by_cases hp : p a = true
    · rw [if_pos hp] at h
      exact ih h
    · rw [if_neg hp] at h
      simp at h
      rw [← h]
      simpa using hp

theorem getLast?_dropWhile (p : Char → Bool) (t : List Char) (c : Char)
    (h : (t.dropWhile p).getLast? = some c) : t.getLast? = some c := by
  obtain ⟨u, hu⟩ := (List.dropWhile_suffix p : t.dropWhile p <:+ t)
  have hne : t.dropWhile p ≠ [] := by
    intro heq
    rw [heq] at h
    simp at h
  rw [← hu, List.getLast?_append_of_ne_nil u hne]
  exact h

theorem stripHyphenEnds_subset (l : List Char) : ∀ c ∈ stripHyphenEnds l, c ∈ l := by
  intro c hc
  simp only [stripHyphenEnds] at hc
  rw [List.mem_reverse] at hc
  have h1 := (List.dropWhile_suffix isHyphen).sublist.subset hc
  rw [List.mem_reverse] at h1
  exact (List.dropWhile_suffix isHyphen).sublist.subset h1

theorem chain_stripHyphenEnds (l : List Char) (h : List.Chain' AdjOk l) :
    List.Chain' AdjOk (stripHyphenEnds l) := by
  have h1 : List.Chain' AdjOk (l.dropWhile isHyphen) :=
    h.suffix (List.dropWhile_suffix _)
  have h2 : List.Chain' (flip AdjOk) (l.dropWhile isHyphen).reverse := by
    rw [List.chain'_reverse]
    exact h1
  have h3 : List.Chain' (flip AdjOk) ((l.dropWhile isHyphen).reverse.dropWhile isHyphen) :=
    h2.suffix (List.dropWhile_suffix _)
  have h4 : List.Chain' AdjOk ((l.dropWhile isHyphen).reverse.dropWhile isHyphen).reverse := by
    rw [List.chain'_reverse]
    exact h3
  exact h4

theorem strip_ends_not_hyphen (l : List Char) :
    (∀ c ∈ (stripHyphenEnds l).head?, isHyphen c = false) ∧
    (∀ c ∈ (stripHyphenEnds l).getLast?, isHyphen c = false) := by
  constructor
  · intro c hc
    simp only [stripHyphenEnds] at hc
    rw [List.head?_reverse] at hc
    have h1 := getLast?_dropWhile isHyphen _ c (Option.mem_def.mp hc)
    rw [List.getLast?_reverse] at h1
    exact dropWhile_head_not isHyphen _ c (Option.mem_def.mpr h1)
  · intro c hc
    simp only [stripHyphenEnds] at hc
    rw [List.getLast?_reverse] at hc
    exact dropWhile_head_not isHyphen _ c hc

theorem good_map_toLower (z : List Char) (hg : ∀ c ∈ z, GoodChar c) :
    ∀ c ∈ z.map toLowerCh, GoodChar c := by
  intro c hc
  rw [List.mem_map] at hc
  obtain ⟨a, ha, rfl⟩ := hc
  rcases hg a ha with h | h
  · exact Or.inl (by rw [isAlnumCI_toLowerCh]; exact h)
  · exact Or.inr (by rw [isHyphen_toLowerCh]; exact h)

theorem chain_map_toLower (z : List Char) (h : List.Chain' AdjOk z) :
    List.Chain' AdjOk (z.map toLowerCh) := by
  rw [List.chain'_map]
  refine h.imp ?_
  intro a b hab
  rcases hab with h1 | h1
  · exact Or.inl (by rw [isAlnumCI_toLowerCh]; exact h1)
  · exact Or.inr (by rw [isAlnumCI_toLowerCh]; exact h1)

theorem sanitizeFilename_fixed (z : List Char) (hg : ∀ c ∈ z, GoodChar c)
    (hc : List.Chain' AdjOk z)
    (hh : ∀ c ∈ z.head?, isHyphen c = false)
    (hl : ∀ c ∈ z.getLast?, isHyphen c = false)
    (hm : z.map toLowerCh = z) :
    sanitizeFilename ⟨z⟩ = ⟨z⟩ := by
  have hstrip : stripHyphenEnds z = z := by
    simp only [stripHyphenEnds]
    rw [dropWhile_of_head_false _ _ hh]
    rw [dropWhile_of_head_false _ _ (by
      intro c hcm
      rw [List.head?_reverse] at hcm
      exact hl c hcm)]
    exact List.reverse_reverse z
  simp only [sanitizeFilename]
  rw [collapseAux_fix z hg hc, hstrip, hm]

theorem sanitizeFilename_idem_one (s : String) :
    sanitizeFilename (sanitizeFilename s) = sanitizeFilename s := by
  have hzg : ∀ c ∈ stripHyphenEnds (collapseAux false s.data), GoodChar c :=
    fun c hcm => collapseAux_good false s.data c (stripHyphenEnds_subset _ c hcm)
  have hzc : List.Chain' AdjOk (stripHyphenEnds (collapseAux false s.data)) :=
    chain_stripHyphenEnds _ (collapseAux_chain s.data).2
  have hzh := strip_ends_not_hyphen (collapseAux false s.data)
  have hyg := good_map_toLower _ hzg
  have hyc := chain_map_toLower _ hzc
  have hyh : ∀ c ∈ ((stripHyphenEnds (collapseAux false s.data)).map toLowerCh).head?,
      isHyphen c = false := by
    intro c hcm
    rw [List.head?_map] at hcm
    simp only [Option.mem_def, Option.map_eq_some'] at hcm
    obtain ⟨a, ha, rfl⟩ := hcm
    rw [isHyphen_toLowerCh]
    exact hzh.1 a ha
  have hyl : ∀ c ∈ ((stripHyphenEnds (collapseAux false s.data)).map toLowerCh).getLast?,
      isHyphen c = false := by
    intro c hcm
    rw [List.getLast?_map] at hcm
    simp only [Option.mem_def, Option.map_eq_some'] at hcm
    obtain ⟨a, ha, rfl⟩ := hcm
    rw [isHyphen_toLowerCh]
    exact hzh.2 a ha
  have hym : ((stripHyphenEnds (collapseAux false s.data)).map toLowerCh).map toLowerCh
      = (stripHyphenEnds (collapseAux false s.data)).map toLowerCh := by
    rw [List.map_map]
    exact List.map_congr_left (fun a _ => toLowerCh_idem a)
  exact sanitizeFilename_fixed _ hyg hyc hyh hyl hym

/-- C6: `sanitizeFilename` is idempotent for every input string, and it
normalizes case-insensitively as specified: each maximal run of characters
outside `[a-z0-9]` collapses to a single hyphen, end hyphens are stripped and
the result is lower-cased, as witnessed on the spec's examples. -/
theorem sanitizeFilename_idem :
    (∀ s : String, sanitizeFilename (sanitizeFilename s) = sanitizeFilename s) ∧
    sanitizeFilename "Hello World!" = "hello-world" ∧
    sanitizeFilename "A  B   C" = "a-b-c" :=
  ⟨sanitizeFilename_idem_one, by decide, by decide⟩

end TextImage
